import Mathlib

/-!
# Verification of the Discop steganography API server (`api_server.py`)

A shallow embedding of the service layer of the Discop repository:
bit/text conversion (`_text_to_bits` / `_bits_to_text`), seed coercion
(`_coerce_seed`), settings-override merging (`_apply_overrides`), the
hygiene/reload policy dispatch, and the encode/decode request handlers
(`_encode_impl` / `_decode_impl`) with their single-retry capacity
negotiation.  Python strings of characters are modelled as lists of
codepoints (`List Nat`), Python bit strings (strings of `'0'`/`'1'`) as
`List Bool`, Python `Optional` as `Option`, and a raised `HTTPException`
as the error branch of `Except`.  The opaque codec, model and tokenizer
collaborators are parameters (oracles) of the handler functions, and the
handlers additionally return the ordered trace of stateful events that the
Python code performs inside its critical section, so that claims about
invocation counts and hygiene actions can be stated about that trace.
-/

namespace Discop

/-- Decidable equality for `Except` results, so that concrete runs of the
fallible operations can be checked by `decide`. -/
instance {ε α : Type} [DecidableEq ε] [DecidableEq α] : DecidableEq (Except ε α) :=
  fun x y =>
    match x, y with
    | .ok a, .ok b =>
      if h : a = b then .isTrue (by rw [h]) else .isFalse (by simp [h])
    | .error a, .error b =>
      if h : a = b then .isTrue (by rw [h]) else .isFalse (by simp [h])
    | .ok _, .error _ => .isFalse (by simp)
    | .error _, .ok _ => .isFalse (by simp)

/-! ## Bit/text conversion (`_text_to_bits`, `_bits_to_text`) -/

/-- Most-significant-bit-first binary digits of `n`, with fuel (the Python
source renders `f"{ord(ch):b}"`; the fuel `n` always suffices since the
number of binary digits of `n` is at most `n` for `n ≥ 1`). -/
def natToBinAux : Nat → Nat → List Bool
  | 0, _ => []
  | fuel + 1, n => if n = 0 then [] else natToBinAux fuel (n / 2) ++ [decide (n % 2 = 1)]

/-- Binary digits of `n`, MSB first; `0` renders as the single digit `0`,
matching Python `f"{0:b}" = "0"`. -/
def natToBin (n : Nat) : List Bool :=
  if n = 0 then [false] else natToBinAux n n

/-- Zero-pad a digit list on the left to at least 8 digits, matching the
Python format specifier `08b` (no-op when the list already has ≥ 8 digits). -/
def pad8 (l : List Bool) : List Bool :=
  List.replicate (8 - l.length) false ++ l

/-- The 8-bit (or longer, for codepoints above 255) rendering of one
character, `f"{ord(ch):08b}"`. -/
def char8 (c : Nat) : List Bool := pad8 (natToBin c)

/-- `_text_to_bits`: concatenation of each character's zero-padded binary
codepoint.  Characters are modelled by their codepoints. -/
def _text_to_bits (text : List Nat) : List Bool :=
  text.flatMap char8

/-- Value of an MSB-first digit list, Python `int(byte, 2)`. -/
def bitsToNat (bs : List Bool) : Nat :=
  bs.foldl (fun acc b => 2 * acc + b.toNat) 0

/-- `_bits_to_text`: consume 8-bit groups in order, stopping at (and
discarding) a trailing group shorter than 8 bits. -/
def _bits_to_text (bits : List Bool) : List Nat :=
  if _h : 8 ≤ bits.length then
    bitsToNat (bits.take 8) :: _bits_to_text (bits.drop 8)
  else []
termination_by bits.length
decreasing_by simp only [List.length_drop]; omega

/-! ## Seed coercion (`_coerce_seed`) -/

/-- The dynamic (`Any`-typed) values the Python `_coerce_seed` can receive:
`None`, a `bytes` value (list of byte values), a `str`, an `int`, or some
other value; `otherCoercible n` stands for a non-`int` value on which
Python `int(value)` succeeds with result `n` (e.g. a float or `bool`), and
`nonCoercible` for a value on which `int(value)` raises
`TypeError`/`ValueError` (e.g. a list). -/
inductive SeedValue where
  | none
  | bytes (bs : List Nat)
  | str (s : String)
  | int (n : Int)
  | otherCoercible (n : Int)
  | nonCoercible
deriving DecidableEq, Repr

/-- Big-endian unsigned value of a byte sequence, `int.from_bytes(value, "big")`. -/
def bytesBE (bs : List Nat) : Nat :=
  bs.foldl (fun acc b => 256 * acc + b) 0

/-- Whitespace characters removed by Python `str.strip()` (the ASCII ones;
non-ASCII Unicode spaces are outside the behaviours the specification
describes). -/
def isPySpace (c : Char) : Bool :=
  c = ' ' || c = '\t' || c = '\n' || c = '\r' || c = Char.ofNat 11 || c = Char.ofNat 12

/-- Python `str.strip()` on the character list of a string. -/
def pyStrip (cs : List Char) : List Char :=
  ((cs.dropWhile isPySpace).reverse.dropWhile isPySpace).reverse

/-- One decimal digit's value, if the character is a digit. -/
def digitVal (c : Char) : Option Nat :=
  if '0' ≤ c ∧ c ≤ '9' then some (c.toNat - '0'.toNat) else Option.none

/-- Value of a nonempty all-digit character list, `Option.none` otherwise. -/
def parseDigits (cs : List Char) : Option Nat :=
  match cs with
  | [] => Option.none
  | _ =>
    cs.foldl
      (fun acc c =>
        match acc, digitVal c with
        | some a, some d => some (10 * a + d)
        | _, _ => Option.none)
      (some 0)

/-- Python `int(s, 10)` on an already-stripped string: an optional sign
followed by a nonempty run of decimal digits.  (Python additionally accepts
underscore digit grouping and non-ASCII decimal digits; those inputs are
outside the behaviours the specification describes and are omitted.) -/
def parseIntBase10 (cs : List Char) : Option Int :=
  match cs with
  | '-' :: rest => (parseDigits rest).map (fun n => -(n : Int))
  | '+' :: rest => (parseDigits rest).map (fun n => (n : Int))
  | l => (parseDigits l).map (fun n => (n : Int))

/-- The detail string of the seed validation error. -/
def seedErrDetail : String := "`settings.seed` must be an integer."

/-- `_coerce_seed`: `None` stays unset; `bytes` decode big-endian (an empty
sequence is returned as `0` by an explicit early branch); a `str` is
stripped and, when empty, treated as unset, otherwise parsed base 10 with a
parse failure raising an HTTP 400; any other value goes through `int(value)`,
whose failure also raises an HTTP 400. -/
def _coerce_seed (value : SeedValue) : Except String (Option Int) :=
  match value with
  | .none => .ok Option.none
  | .bytes bs =>
    if bs.length = 0 then .ok (some 0) else .ok (some (bytesBE bs))
  | .str s =>
    let t := pyStrip s.data
    if t = [] then .ok Option.none
    else
      match parseIntBase10 t with
      | some n => .ok (some n)
      | Option.none => .error seedErrDetail
  | .int n => .ok (some n)
  | .otherCoercible n => .ok (some n)
  | .nonCoercible => .error seedErrDetail

/-! ## Settings and override merging (`Settings`, `SettingsOverride`,
`_apply_overrides`, `_suggest_length`) -/

/-- Store back the `Optional[int]` result of a coercion into the
dynamically typed `seed` attribute of a settings object. -/
def seedOfOpt (o : Option Int) : SeedValue :=
  match o with
  | Option.none => SeedValue.none
  | some n => SeedValue.int n

/-- The settings record (`config.Settings` as used by the server): algorithm
variant, softmax temperature, nucleus threshold, generation length, seed and
device.  `temp` and `top_p` are carried opaquely (the server never computes
with them), so they are represented as rationals. -/
structure Settings where
  algo : String
  temp : ℚ
  top_p : ℚ
  length : Option Int
  seed : SeedValue
  device : String
deriving DecidableEq, Repr

/-- The per-request override (`SettingsOverride` pydantic model); every
field is optional, `seed` is a validated non-negative integer when present
(the pydantic field has `ge=0`). -/
structure SettingsOverride where
  algo : Option String := Option.none
  temp : Option ℚ := Option.none
  top_p : Option ℚ := Option.none
  length : Option Int := Option.none
  seed : Option Int := Option.none
deriving DecidableEq, Repr

/-- `_apply_overrides`: for each field present (non-`None`) in the override,
overwrite the corresponding settings attribute; the `seed` field is routed
through `_coerce_seed` before being stored.  (On an integer the coercion
never fails, but the error branch is kept to mirror the source.) -/
def _apply_overrides (settings : Settings) (overrides : Option SettingsOverride) :
    Except String Settings :=
  match overrides with
  | Option.none => .ok settings
  | some ov =>
    let s1 := match ov.algo with | some a => { settings with algo := a } | Option.none => settings
    let s2 := match ov.temp with | some t => { s1 with temp := t } | Option.none => s1
    let s3 := match ov.top_p with | some p => { s2 with top_p := p } | Option.none => s2
    let s4 := match ov.length with | some l => { s3 with length := some l } | Option.none => s3
    match ov.seed with
    | Option.none => .ok s4
    | some n =>
      match _coerce_seed (SeedValue.int n) with
      | .ok r => .ok { s4 with seed := seedOfOpt r }
      | .error e => .error e

/-- `_suggest_length`: `max(32, ceil(bit_len / 3.6) + 8)`.  With the fixed
rate `3.6 = 18/5` the real-valued ceiling is `⌈5·bit_len/18⌉`, written in
natural division as `(5*bit_len + 17) / 18`. -/
def _suggest_length (bit_len : Nat) : Int :=
  max 32 (((5 * bit_len + 17) / 18 : Nat) + 8)

/-! ## Hygiene policy (`RELOAD_STRATEGY` dispatch) -/

/-- The four reload strategies, `"none" | "reset" | "reload" | "periodic"`. -/
inductive ReloadStrategy where
  | none
  | reset
  | reload
  | periodic
deriving DecidableEq, Repr

/-- The two hygiene actions a request can trigger. -/
inductive HygieneAction where
  | resetState
  | reloadModel
deriving DecidableEq, Repr

/-- The pre-request hygiene dispatch performed at the head of the critical
section of both `_encode_impl` and `_decode_impl`: `reload` →
`_reload_model()`; `reset` → `_reset_model_state()`; `periodic` →
`_reload_model()` only when the operation counter is a multiple of
`RELOAD_EVERY_N_OPS`; otherwise nothing. -/
def hygieneFor (strat : ReloadStrategy) (counter everyN : Nat) : Option HygieneAction :=
  match strat with
  | .reload => some .reloadModel
  | .reset => some .resetState
  | .periodic => if counter % everyN = 0 then some .reloadModel else Option.none
  | .none => Option.none

/-- The hygiene re-run before the single encode retry:
`if RELOAD_STRATEGY in ["reload", "reset"]: _reset_model_state()`. -/
def retryHygiene (strat : ReloadStrategy) : Option HygieneAction :=
  match strat with
  | .reload => some .resetState
  | .reset => some .resetState
  | _ => Option.none

/-! ## Server state, collaborators, requests and responses -/

/-- The process-wide mutable state touched by the handlers: the default
settings object `_BASE_SETTINGS`, the `_OPERATION_COUNTER`, and whether the
lazily loaded model/tokenizer pair exists. -/
structure ServerState where
  baseSettings : Settings
  opCounter : Nat
  modelLoaded : Bool
deriving Repr

/-- Result record of the codec's `encode_text`. -/
structure CodecOutput where
  stego_object : String
  n_bits : Nat
  n_tokens : Nat
  embedding_rate : ℚ
  utilization_rate : ℚ
  perplexity : ℚ
deriving DecidableEq, Repr

/-- The opaque `encode_text` collaborator, as a deterministic function of
the payload bits, the context and the effective settings (the two calls of
one request always differ in `settings.length`, so a test double that
under-delivers on the first call and delivers on the second is expressible). -/
def EncodeCodec : Type := List Bool → String → Settings → CodecOutput

/-- The opaque `decode_text` collaborator. -/
def DecodeCodec : Type := List Nat → String → Settings → List Bool

/-- The opaque tokenizer's `encode` (text to token ids). -/
def Tokenizer : Type := String → List Nat

/-- The stateful events of a request's critical section, in order. -/
inductive Event where
  | ensureLoaded
  | hygiene (a : HygieneAction)
  | codecEncode (settings : Settings)
  | codecDecode (settings : Settings)
  | counterIncrement
deriving DecidableEq, Repr

/-- The trace fragment of running an optional hygiene action. -/
def hygEvents (o : Option HygieneAction) : List Event :=
  match o with
  | some a => [Event.hygiene a]
  | Option.none => []

/-- Whether an event is a codec `encode_text` invocation. -/
def isCodecEncode (e : Event) : Bool :=
  match e with
  | .codecEncode _ => true
  | _ => false

/-- Whether an event is a codec `decode_text` invocation. -/
def isCodecDecode (e : Event) : Bool :=
  match e with
  | .codecDecode _ => true
  | _ => false

/-- Whether an event is a hygiene action. -/
def isHygiene (e : Event) : Bool :=
  match e with
  | .hygiene _ => true
  | _ => false

/-- Structured client-facing failures: HTTP 400 (validation) and HTTP 422
(capacity). -/
inductive ApiError where
  | validation (detail : String)
  | capacity (detail : String)
deriving DecidableEq, Repr

/-- An encode request: message (as codepoints), optional context, optional
settings override. -/
structure EncodeRequest where
  message : List Nat
  context : Option String := Option.none
  settings : Option SettingsOverride := Option.none

/-- The encode response body. -/
structure EncodeResponse where
  stego_text : String
  embedded_bits : Nat
  payload_bits : Nat
  token_count : Nat
  embedding_rate : ℚ
  utilization_rate : ℚ
  perplexity : ℚ
  settings : SettingsOverride
deriving DecidableEq, Repr

/-- A decode request: stego text, required context, optional expected bit
count (pydantic `gt=0`), optional settings override. -/
structure DecodeRequest where
  stego_text : String
  context : String
  expected_bits : Option Nat := Option.none
  settings : Option SettingsOverride := Option.none

/-- The decode response body. -/
structure DecodeResponse where
  recovered_bits : List Bool
  recovered_text : Option (List Nat)
  used_bits : Nat
deriving DecidableEq, Repr

/-- The neutral default context. -/
def _DEFAULT_CONTEXT : String :=
  "We were both young when I first saw you, I close my eyes and the flashback starts."

/-- Detail string of the empty-message validation error. -/
def emptyMessageDetail : String := "Message must not be empty."

/-- Detail string of the untokenizable-stego-text validation error. -/
def emptyTokensDetail : String := "Unable to tokenize stego text. Verify the input content."

/-- Detail string of the capacity error. -/
def capacityDetail : String :=
  "Failed to embed the entire payload. Consider increasing `settings.length` or reducing the message size."

/-! ## The encode handler (`_encode_impl`) -/

/-- Build the `settings` echoed in the encode response: the effective
settings re-packed as a `SettingsOverride`, the seed passed once more
through `_coerce_seed` (at this point the attribute holds either an unset
value or an integer, on which coercion cannot fail; its error branch is
collapsed to unset). -/
def responseSettings (s : Settings) : SettingsOverride :=
  { algo := some s.algo
    temp := some s.temp
    top_p := some s.top_p
    length := s.length
    seed := match _coerce_seed s.seed with
            | .ok r => r
            | .error _ => Option.none }

/-- The pre-lock phase of `_encode_impl`: convert the message to bits and
reject an empty result; deep-copy the base settings (value semantics);
normalise the copy's seed through `_coerce_seed`; merge the caller's
override; auto-suggest a generation length when the merged length is unset
or non-positive; pick the context.  Returns the payload bits, the effective
settings and the context. -/
def prepareEncode (base : Settings) (req : EncodeRequest) :
    Except ApiError (List Bool × Settings × String) :=
  let message_bits := _text_to_bits req.message
  if message_bits = [] then
    .error (.validation emptyMessageDetail)
  else
    match _coerce_seed base.seed with
    | .error e => .error (.validation e)
    | .ok r =>
      let settings1 := { base with seed := seedOfOpt r }
      match _apply_overrides settings1 req.settings with
      | .error e => .error (.validation e)
      | .ok settings2 =>
        let settings3 :=
          if settings2.length.isNone ∨ settings2.length.getD 0 ≤ 0 then
            { settings2 with length := some (_suggest_length message_bits.length) }
          else settings2
        let context := match req.context with
                       | some c => c
                       | Option.none => _DEFAULT_CONTEXT
        .ok (message_bits, settings3, context)

/-- The settings of the single enlarged-budget retry:
`settings.length = max(settings.length + 16, len(message_bits) // 2)`. -/
def retrySettings (s : Settings) (payloadBits : Nat) : Settings :=
  { s with length := some (max (s.length.getD 0 + 16) ((payloadBits / 2 : Nat) : Int)) }

/-- The critical section of `_encode_impl`, under the model lock: ensure
the model is loaded, run the configured hygiene action, invoke the codec;
if it embedded fewer bits than the payload, enlarge the length, re-run a
state reset when the strategy is `reload` or `reset`, and invoke the codec
exactly once more; finally increment the operation counter.  Returns the
final codec output and effective settings, the new server state, and the
event trace. -/
def encodeCritical (strat : ReloadStrategy) (everyN : Nat) (codec : EncodeCodec)
    (st : ServerState) (message_bits : List Bool) (context : String) (settings : Settings) :
    (CodecOutput × Settings) × ServerState × List Event :=
  let st1 : ServerState := { st with modelLoaded := true }
  let preEvents : List Event :=
    Event.ensureLoaded :: hygEvents (hygieneFor strat st1.opCounter everyN)
  let output := codec message_bits context settings
  let firstEvents := preEvents ++ [Event.codecEncode settings]
  let (result, events) :=
    if output.n_bits < message_bits.length then
      let settings' := retrySettings settings message_bits.length
      let retryEvents : List Event :=
        hygEvents (retryHygiene strat) ++ [Event.codecEncode settings']
      ((codec message_bits context settings', settings'), firstEvents ++ retryEvents)
    else
      ((output, settings), firstEvents)
  let st2 : ServerState := { st1 with opCounter := st1.opCounter + 1 }
  (result, st2, events ++ [Event.counterIncrement])

/-- Assembly of the encode response body from the final codec output, the
payload bit count and the final effective settings. -/
def mkEncodeResponse (output : CodecOutput) (payloadBits : Nat) (finalSettings : Settings) :
    EncodeResponse :=
  { stego_text := output.stego_object
    embedded_bits := output.n_bits
    payload_bits := payloadBits
    token_count := output.n_tokens
    embedding_rate := output.embedding_rate
    utilization_rate := output.utilization_rate
    perplexity := output.perplexity
    settings := responseSettings finalSettings }

/-- `_encode_impl`: validation and settings preparation, then the locked
critical section, then the post-lock capacity check and response assembly.
Returns the structured result, the final server state and the event trace. -/
def _encode_impl (strat : ReloadStrategy) (everyN : Nat) (codec : EncodeCodec)
    (st : ServerState) (req : EncodeRequest) :
    Except ApiError EncodeResponse × ServerState × List Event :=
  match prepareEncode st.baseSettings req with
  | .error e => (.error e, st, [])
  | .ok (message_bits, settings, context) =>
    let ((output, finalSettings), st', events) :=
      encodeCritical strat everyN codec st message_bits context settings
    if output.n_bits < message_bits.length then
      (.error (.capacity capacityDetail), st', events)
    else
      (.ok (mkEncodeResponse output message_bits.length finalSettings), st', events)

/-! ## The decode handler (`_decode_impl`) -/

/-- The pre-lock phase of `_decode_impl`: deep-copy the base settings,
normalise the copy's seed, merge the caller's override. -/
def prepareDecode (base : Settings) (req : DecodeRequest) : Except ApiError Settings :=
  match _coerce_seed base.seed with
  | .error e => .error (.validation e)
  | .ok r =>
    let settings1 := { base with seed := seedOfOpt r }
    match _apply_overrides settings1 req.settings with
    | .error e => .error (.validation e)
    | .ok settings2 => .ok settings2

/-- Post-lock assembly of the decode response: trim the recovered bits to
`expected_bits` when given; render the recovered text, collapsing an empty
recovery or an empty rendering to `None`. -/
def mkDecodeResponse (recovered : List Bool) (expected : Option Nat) : DecodeResponse :=
  let recovered_bits :=
    match expected with
    | some k => recovered.take k
    | Option.none => recovered
  let recovered_text : Option (List Nat) :=
    if recovered_bits = [] then Option.none
    else
      let t := _bits_to_text recovered_bits
      if t = [] then Option.none else some t
  { recovered_bits := recovered_bits
    recovered_text := recovered_text
    used_bits := recovered_bits.length }

/-- `_decode_impl`: settings preparation, then under the lock: ensure the
model is loaded, tokenize the stego text and reject an empty token
sequence, run the configured hygiene action, invoke the decode codec,
increment the operation counter; after the lock, trim the recovered bits to
`expected_bits` when given and render the recovered text (empty renderings
collapse to `None`). -/
def _decode_impl (strat : ReloadStrategy) (everyN : Nat)
    (tokenizer : Tokenizer) (codec : DecodeCodec)
    (st : ServerState) (req : DecodeRequest) :
    Except ApiError DecodeResponse × ServerState × List Event :=
  match prepareDecode st.baseSettings req with
  | .error e => (.error e, st, [])
  | .ok settings =>
    let st1 : ServerState := { st with modelLoaded := true }
    let token_ids := tokenizer req.stego_text
    if token_ids = [] then
      (.error (.validation emptyTokensDetail), st1, [Event.ensureLoaded])
    else
      let preEvents : List Event :=
        Event.ensureLoaded :: hygEvents (hygieneFor strat st1.opCounter everyN)
      let recovered := codec token_ids req.context settings
      let st2 : ServerState := { st1 with opCounter := st1.opCounter + 1 }
      let events := preEvents ++ [Event.codecDecode settings, Event.counterIncrement]
      (.ok (mkDecodeResponse recovered req.expected_bits), st2, events)

/-! ## Lemmas: bit/text conversion -/

/-- For every byte value, the padded binary rendering has exactly 8 digits
and evaluates back to the byte. -/
theorem char8_byte : ∀ c < 256, bitsToNat (char8 c) = c ∧ (char8 c).length = 8 := by
  set_option maxRecDepth 4000 in decide

/-- A bit string shorter than one group converts to the empty text. -/
theorem _bits_to_text_short (bs : List Bool) (h : bs.length < 8) :
    _bits_to_text bs = [] := by
  rw [_bits_to_text]
  rw [dif_neg (by omega)]

/-- Peeling one full 8-bit group off the front. -/
theorem _bits_to_text_append8 (b8 rest : List Bool) (h : b8.length = 8) :
    _bits_to_text (b8 ++ rest) = bitsToNat b8 :: _bits_to_text rest := by
  rw [_bits_to_text]
  rw [dif_pos (by simp [h])]
  congr 1
  · congr 1
    rw [← h, List.take_left]
  · rw [← h, List.drop_left]

/-- Round trip on one character list whose codepoints all fit one byte. -/
theorem text_bits_roundtrip (cs : List Nat) (h : ∀ c ∈ cs, c ≤ 255) :
    _bits_to_text (_text_to_bits cs) = cs ∧ (_text_to_bits cs).length = 8 * cs.length := by
  induction cs with
  | nil =>
    constructor
    · rw [_text_to_bits]
      simp only [List.flatMap_nil]
      exact _bits_to_text_short [] (by simp)
    · simp [_text_to_bits]
  | cons c cs ih =>
    have hc : c < 256 := by
      have := h c (by simp)
      omega
    have hrest : ∀ x ∈ cs, x ≤ 255 := fun x hx => h x (by simp [hx])
    obtain ⟨ihv, ihl⟩ := ih hrest
    have hbyte := char8_byte c hc
    have hfm : cs.flatMap char8 = _text_to_bits cs := rfl
    constructor
    · rw [_text_to_bits, List.flatMap_cons]
      rw [_bits_to_text_append8 _ _ hbyte.2]
      rw [hbyte.1]
      rw [hfm, ihv]
    · rw [_text_to_bits, List.flatMap_cons]
      simp only [List.length_append, hbyte.2]
      rw [hfm, ihl]
      simp only [List.length_cons]
      ring

/-- Appending fewer than 8 bits after whole groups does not change the
conversion: the trailing partial group is discarded. -/
theorem _bits_to_text_drop_partial :
    ∀ n (bs t : List Bool), bs.length = 8 * n → t.length < 8 →
      _bits_to_text (bs ++ t) = _bits_to_text bs := by
  intro n
  induction n with
  | zero =>
    intro bs t hlen ht
    have hbs : bs = [] := List.eq_nil_of_length_eq_zero (by omega)
    subst hbs
    rw [List.nil_append, _bits_to_text_short t ht, _bits_to_text_short [] (by simp)]
  | succ k ih =>
    intro bs t hlen ht
    have hsplit := (List.take_append_drop 8 bs).symm
    have htake : (bs.take 8).length = 8 := by
      rw [List.length_take]
      omega
    rw [hsplit, List.append_assoc]
    rw [_bits_to_text_append8 _ _ htake, _bits_to_text_append8 _ _ htake]
    rw [ih (bs.drop 8) t (by simp only [List.length_drop]; omega) ht]

/-- The converted text has one character per complete 8-bit group. -/
theorem _bits_to_text_length (bs : List Bool) :
    (_bits_to_text bs).length = bs.length / 8 := by
  induction bs using _bits_to_text.induct with
  | case1 bs h ih =>
    rw [_bits_to_text, dif_pos h]
    simp only [List.length_cons, ih, List.length_drop]
    omega
  | case2 bs h =>
    rw [_bits_to_text, dif_neg h]
    simp only [List.length_nil]
    omega

/-- C6: for every string of codepoint-≤255 characters, `_bits_to_text`
inverts `_text_to_bits` and the bit string's length is a multiple of 8;
and `_bits_to_text` consumes 8-bit groups in order — one output character
per complete group — silently discarding a trailing group shorter than
8 bits (it is a total function, so no error is ever raised). -/
theorem bit_text_roundtrip_truncation :
    (∀ cs : List Nat, (∀ c ∈ cs, c ≤ 255) →
        _bits_to_text (_text_to_bits cs) = cs ∧ (_text_to_bits cs).length % 8 = 0) ∧
    (∀ bs t : List Bool, bs.length % 8 = 0 → t.length < 8 →
        _bits_to_text (bs ++ t) = _bits_to_text bs) ∧
    (∀ bs : List Bool, (_bits_to_text bs).length = bs.length / 8) := by
  refine ⟨?_, ?_, _bits_to_text_length⟩
  · intro cs h
    obtain ⟨hv, hl⟩ := text_bits_roundtrip cs h
    exact ⟨hv, by omega⟩
  · intro bs t hbs ht
    exact _bits_to_text_drop_partial (bs.length / 8) bs t (by omega) ht

/-- Witness for C6: the two-character message `"AB"` round-trips, its bit
string has length 16, and a 9-bit string loses its trailing single bit. -/
theorem bit_text_roundtrip_truncation_witness :
    _bits_to_text (_text_to_bits [65, 66]) = [65, 66] ∧
    (_text_to_bits [65, 66]).length % 8 = 0 ∧
    _bits_to_text ([true, false, false, false, false, false, true, false] ++ [true]) =
      _bits_to_text [true, false, false, false, false, false, true, false] := by
  obtain ⟨h1, h2⟩ := bit_text_roundtrip_truncation.1 [65, 66] (by decide)
  refine ⟨h1, h2, ?_⟩
  exact bit_text_roundtrip_truncation.2.1 _ _ (by decide) (by decide)

/-! ## Lemmas: seed coercion -/

/-- C2 counterexample: the empty string is non-numeric (its stripped form
fails base-10 parsing), yet `_coerce_seed` returns an unset seed instead of
the validation error the claim requires for non-numeric strings. -/
theorem coerce_seed_empty_string_cx :
    parseIntBase10 (pyStrip "".data) = Option.none ∧
    _coerce_seed (SeedValue.str "") = .ok Option.none := by
  decide

/-- C2 (amended): seed coercion maps null to unset; a byte sequence to its
big-endian unsigned value (empty bytes to 0, bytes `0x0100` to 256); a
string is stripped and — when nonempty after stripping — parsed base 10
(`"42"` to 42, the non-numeric `"abc"` to a validation error), while a
string that is empty after stripping yields an unset seed; integers and
other numeric-like values coerce to their integer value, and non-coercible
values yield a validation error. -/
theorem coerce_seed_spec :
    (_coerce_seed SeedValue.none = .ok Option.none) ∧
    (∀ bs : List Nat, _coerce_seed (SeedValue.bytes bs) = .ok (some (bytesBE bs))) ∧
    (_coerce_seed (SeedValue.bytes []) = .ok (some 0)) ∧
    (_coerce_seed (SeedValue.bytes [1, 0]) = .ok (some 256)) ∧
    (∀ (s : String) (n : Int), parseIntBase10 (pyStrip s.data) = some n →
        _coerce_seed (SeedValue.str s) = .ok (some n)) ∧
    (∀ s : String, pyStrip s.data ≠ [] → parseIntBase10 (pyStrip s.data) = Option.none →
        _coerce_seed (SeedValue.str s) = .error seedErrDetail) ∧
    (∀ s : String, pyStrip s.data = [] → _coerce_seed (SeedValue.str s) = .ok Option.none) ∧
    (_coerce_seed (SeedValue.str "42") = .ok (some 42)) ∧
    (_coerce_seed (SeedValue.str "abc") = .error seedErrDetail) ∧
    (∀ n : Int, _coerce_seed (SeedValue.int n) = .ok (some n)) ∧
    (∀ n : Int, _coerce_seed (SeedValue.otherCoercible n) = .ok (some n)) ∧
    (_coerce_seed SeedValue.nonCoercible = .error seedErrDetail) := by
  refine ⟨rfl, ?_, by decide, by decide, ?_, ?_, ?_, by decide, by decide,
    fun n => rfl, fun n => rfl, rfl⟩
  · intro bs
    by_cases h0 : bs.length = 0
    · have : bs = [] := List.eq_nil_of_length_eq_zero h0
      subst this
      decide
    · simp [_coerce_seed, h0]
  · intro s n h
    have ht : pyStrip s.data ≠ [] := by
      intro he
      rw [he] at h
      simp [parseIntBase10, parseDigits] at h
    simp [_coerce_seed, ht, h]
  · intro s ht hp
    simp [_coerce_seed, ht, hp]
  · intro s ht
    simp [_coerce_seed, ht]

/-- Witness for C2 (amended): the string `" 42 "` is stripped and parsed to
the seed 42 by an application of the string clause. -/
theorem coerce_seed_spec_witness :
    _coerce_seed (SeedValue.str " 42 ") = .ok (some 42) :=
  coerce_seed_spec.2.2.2.2.1 " 42 " 42 (by decide)

/-- C3 counterexample: the string `"-5"` coerces to the negative seed `-5`,
not a non-negative integer and not a validation error. -/
theorem coerce_seed_negative_cx :
    _coerce_seed (SeedValue.str "-5") = .ok (some (-5)) ∧ ((-5 : Int) < 0) := by
  decide

/-- C3 (amended): for every non-null input, seed coercion deterministically
yields an integer (possibly negative, e.g. for negative numeric strings), a
validation error, or — only for strings that are empty after stripping — an
unset seed; a byte-sequence input always yields a non-negative integer. -/
theorem coerce_seed_classification (v : SeedValue) (h : v ≠ SeedValue.none) :
    (_coerce_seed v = .error seedErrDetail ∨
      (∃ n : Int, _coerce_seed v = .ok (some n)) ∨
      (_coerce_seed v = .ok Option.none ∧
        ∃ s : String, v = SeedValue.str s ∧ pyStrip s.data = [])) ∧
    (∀ bs : List Nat, v = SeedValue.bytes bs →
      ∃ m : Nat, _coerce_seed v = .ok (some (m : Int))) := by
  cases v with
  | none => exact absurd rfl h
  | bytes bs =>
    constructor
    · right; left
      exact ⟨(bytesBE bs : Int), coerce_seed_spec.2.1 bs⟩
    · intro bs' hv
      exact ⟨bytesBE bs, coerce_seed_spec.2.1 bs⟩
  | str s =>
    refine ⟨?_, by intro bs hv; cases hv⟩
    by_cases ht : pyStrip s.data = []
    · right; right
      exact ⟨coerce_seed_spec.2.2.2.2.2.2.1 s ht, s, rfl, ht⟩
    · cases hp : parseIntBase10 (pyStrip s.data) with
      | none => exact Or.inl (coerce_seed_spec.2.2.2.2.2.1 s ht hp)
      | some n => exact Or.inr (Or.inl ⟨n, coerce_seed_spec.2.2.2.2.1 s n hp⟩)
  | int n => exact ⟨Or.inr (Or.inl ⟨n, rfl⟩), by intro bs hv; cases hv⟩
  | otherCoercible n => exact ⟨Or.inr (Or.inl ⟨n, rfl⟩), by intro bs hv; cases hv⟩
  | nonCoercible => exact ⟨Or.inl rfl, by intro bs hv; cases hv⟩

/-- Witness for C3 (amended): the classification applied to the concrete
input `"7"`. -/
theorem coerce_seed_classification_witness :
    _coerce_seed (SeedValue.str "7") = .error seedErrDetail ∨
    (∃ n : Int, _coerce_seed (SeedValue.str "7") = .ok (some n)) ∨
    (_coerce_seed (SeedValue.str "7") = .ok Option.none ∧
      ∃ s : String, SeedValue.str "7" = SeedValue.str s ∧ pyStrip s.data = []) :=
  (coerce_seed_classification (SeedValue.str "7") (by decide)).1

/-! ## Lemmas: the shape of an encode run -/

/-- An encode run whose first codec invocation embeds enough bits: one
codec invocation, no retry hygiene, successful response. -/
theorem _encode_impl_run_noretry
    (strat : ReloadStrategy) (everyN : Nat) (codec : EncodeCodec)
    (st : ServerState) (req : EncodeRequest)
    (bits : List Bool) (s : Settings) (ctx : String)
    (hprep : prepareEncode st.baseSettings req = .ok (bits, s, ctx))
    (hr : ¬ (codec bits ctx s).n_bits < bits.length) :
    _encode_impl strat everyN codec st req =
      (.ok (mkEncodeResponse (codec bits ctx s) bits.length s),
       { st with modelLoaded := true, opCounter := st.opCounter + 1 },
       Event.ensureLoaded :: hygEvents (hygieneFor strat st.opCounter everyN) ++
         [Event.codecEncode s, Event.counterIncrement]) := by
  simp only [_encode_impl, hprep, encodeCritical, hr, if_false, if_neg hr]
  simp

/-- An encode run whose first codec invocation embeds too few bits: one
retry with the enlarged settings, preceded by the retry hygiene re-run; the
post-retry capacity check decides success or the capacity error. -/
theorem _encode_impl_run_retry
    (strat : ReloadStrategy) (everyN : Nat) (codec : EncodeCodec)
    (st : ServerState) (req : EncodeRequest)
    (bits : List Bool) (s : Settings) (ctx : String)
    (hprep : prepareEncode st.baseSettings req = .ok (bits, s, ctx))
    (hr : (codec bits ctx s).n_bits < bits.length) :
    _encode_impl strat everyN codec st req =
      ((if (codec bits ctx (retrySettings s bits.length)).n_bits < bits.length then
          .error (.capacity capacityDetail)
        else
          .ok (mkEncodeResponse (codec bits ctx (retrySettings s bits.length)) bits.length
                (retrySettings s bits.length))),
       { st with modelLoaded := true, opCounter := st.opCounter + 1 },
       Event.ensureLoaded :: hygEvents (hygieneFor strat st.opCounter everyN) ++
         [Event.codecEncode s] ++ hygEvents (retryHygiene strat) ++
         [Event.codecEncode (retrySettings s bits.length), Event.counterIncrement]) := by
  simp only [_encode_impl, hprep, encodeCritical, if_pos hr]
  split <;> simp

/-- Hygiene trace fragments contain no codec-encode events. -/
theorem hygEvents_filter_codecEncode (o : Option HygieneAction) :
    (hygEvents o).filter isCodecEncode = [] := by
  cases o <;> rfl

/-- Hygiene trace fragments contain no codec-decode events. -/
theorem hygEvents_filter_codecDecode (o : Option HygieneAction) :
    (hygEvents o).filter isCodecDecode = [] := by
  cases o <;> rfl

/-- Hygiene trace fragments consist of hygiene events only. -/
theorem hygEvents_filter_hygiene (o : Option HygieneAction) :
    (hygEvents o).filter isHygiene = hygEvents o := by
  cases o <;> rfl

/-- C1: if the first codec invocation embeds at least the payload bit
count, the codec is invoked exactly once and the request succeeds; if it
embeds fewer bits, the codec is invoked exactly one more time with the
generation length recomputed as `max(currentLength + 16, payloadBits / 2)`,
and then the request succeeds when the retry embeds enough bits and fails
with the capacity error when it is still short — with no further codec
invocation either way. -/
theorem encode_capacity_negotiation
    (strat : ReloadStrategy) (everyN : Nat) (codec : EncodeCodec)
    (st : ServerState) (req : EncodeRequest)
    (bits : List Bool) (s : Settings) (ctx : String)
    (hprep : prepareEncode st.baseSettings req = .ok (bits, s, ctx)) :
    (bits.length ≤ (codec bits ctx s).n_bits →
      (_encode_impl strat everyN codec st req).2.2.filter isCodecEncode =
        [Event.codecEncode s] ∧
      (_encode_impl strat everyN codec st req).1 =
        .ok (mkEncodeResponse (codec bits ctx s) bits.length s)) ∧
    ((codec bits ctx s).n_bits < bits.length →
      (_encode_impl strat everyN codec st req).2.2.filter isCodecEncode =
        [Event.codecEncode s,
         Event.codecEncode
           { s with length := some (max (s.length.getD 0 + 16) ((bits.length / 2 : Nat) : Int)) }] ∧
      ((codec bits ctx (retrySettings s bits.length)).n_bits < bits.length →
        (_encode_impl strat everyN codec st req).1 = .error (.capacity capacityDetail)) ∧
      (bits.length ≤ (codec bits ctx (retrySettings s bits.length)).n_bits →
        (_encode_impl strat everyN codec st req).1 =
          .ok (mkEncodeResponse (codec bits ctx (retrySettings s bits.length)) bits.length
                (retrySettings s bits.length)))) := by
  constructor
  · intro h
    have hr : ¬ (codec bits ctx s).n_bits < bits.length := by omega
    rw [_encode_impl_run_noretry strat everyN codec st req bits s ctx hprep hr]
    refine ⟨?_, rfl⟩
    simp [List.filter_append, hygEvents_filter_codecEncode, isCodecEncode]
  · intro hr
    rw [_encode_impl_run_retry strat everyN codec st req bits s ctx hprep hr]
    refine ⟨?_, ?_, ?_⟩
    · have hrs : retrySettings s bits.length =
          { s with length := some (max (s.length.getD 0 + 16) ((bits.length / 2 : Nat) : Int)) } :=
        rfl
      simp [List.filter_append, hygEvents_filter_codecEncode, isCodecEncode, hrs]
    · intro h2
      simp only [if_pos h2]
    · intro h2
      have h2' : ¬ (codec bits ctx (retrySettings s bits.length)).n_bits < bits.length := by
        omega
      simp only [if_neg h2']

/-- Concrete default settings for witness runs. -/
def wBase : Settings :=
  { algo := "Discop", temp := 1, top_p := 1, length := some 40,
    seed := SeedValue.none, device := "cpu" }

/-- Concrete server state for witness runs. -/
def wState : ServerState :=
  { baseSettings := wBase, opCounter := 1, modelLoaded := false }

/-- Concrete one-character encode request for witness runs. -/
def wReq : EncodeRequest := { message := [65] }

/-- A codec double that under-delivers at the original length 40 and
delivers in full at any other length. -/
def wCodecDouble : EncodeCodec := fun bits _ s =>
  { stego_object := "w", n_bits := if s.length = some 40 then 0 else bits.length,
    n_tokens := 2, embedding_rate := 1, utilization_rate := 1, perplexity := 1 }

/-- Witness for C1: with the under-then-deliver codec double, the run
performs exactly two codec invocations, the second at the recomputed
length. -/
theorem encode_capacity_negotiation_witness :
    (_encode_impl .reset 10 wCodecDouble wState wReq).2.2.filter isCodecEncode =
      [Event.codecEncode wBase,
       Event.codecEncode
         { wBase with
            length := some (max (wBase.length.getD 0 + 16)
              (((char8 65).length / 2 : Nat) : Int)) }] :=
  ((encode_capacity_negotiation .reset 10 wCodecDouble wState wReq (char8 65) wBase
      _DEFAULT_CONTEXT (by decide)).2 (by decide)).1

/-- A codec double that always under-delivers (embeds zero bits). -/
def cxCodecShort : EncodeCodec := fun _ _ _ =>
  { stego_object := "x", n_bits := 0, n_tokens := 1,
    embedding_rate := 0, utilization_rate := 0, perplexity := 0 }

/-- C4 counterexample: under the `reload` policy, a run that triggers the
retry re-runs `_reset_model_state` (not `_reload_model`) before the second
codec invocation — the concrete trace shows `hygiene resetState` between
the two codec invocations while the claim requires `reloadModel` there. -/
theorem encode_retry_hygiene_reload_cx :
    (_encode_impl .reload 10 cxCodecShort wState wReq).2.2 =
      [Event.ensureLoaded, Event.hygiene HygieneAction.reloadModel,
       Event.codecEncode wBase, Event.hygiene HygieneAction.resetState,
       Event.codecEncode { wBase with length := some 56 }, Event.counterIncrement] ∧
    HygieneAction.resetState ≠ HygieneAction.reloadModel := by
  decide

/-- C4 (amended): when the first encode attempt under-delivers, a hygiene
action is re-run before the retry exactly when the policy is `reset` or
`reload`, and in both cases that action is `resetState` (the lighter
`_reset_model_state`, also under the `reload` policy); under `none` or
`periodic` no hygiene action is re-run before the retry. -/
theorem encode_retry_hygiene
    (strat : ReloadStrategy) (everyN : Nat) (codec : EncodeCodec)
    (st : ServerState) (req : EncodeRequest)
    (bits : List Bool) (s : Settings) (ctx : String)
    (hprep : prepareEncode st.baseSettings req = .ok (bits, s, ctx))
    (hr : (codec bits ctx s).n_bits < bits.length) :
    (_encode_impl strat everyN codec st req).2.2 =
      Event.ensureLoaded :: hygEvents (hygieneFor strat st.opCounter everyN) ++
        [Event.codecEncode s] ++
        (if strat = .reset ∨ strat = .reload then [Event.hygiene HygieneAction.resetState]
         else []) ++
        [Event.codecEncode (retrySettings s bits.length), Event.counterIncrement] := by
  rw [_encode_impl_run_retry strat everyN codec st req bits s ctx hprep hr]
  have hretry : hygEvents (retryHygiene strat) =
      (if strat = .reset ∨ strat = .reload then [Event.hygiene HygieneAction.resetState]
       else []) := by
    cases strat <;> simp [retryHygiene, hygEvents]
  simp [hretry]

/-- Witness for C4 (amended): the trace of the concrete `reload`-policy run
that triggers the retry. -/
theorem encode_retry_hygiene_witness :
    (_encode_impl .reload 10 cxCodecShort wState wReq).2.2 =
      Event.ensureLoaded :: hygEvents (hygieneFor .reload wState.opCounter 10) ++
        [Event.codecEncode wBase] ++
        (if (ReloadStrategy.reload = .reset ∨ ReloadStrategy.reload = .reload) then
           [Event.hygiene HygieneAction.resetState]
         else []) ++
        [Event.codecEncode (retrySettings wBase (char8 65).length),
         Event.counterIncrement] :=
  encode_retry_hygiene .reload 10 cxCodecShort wState wReq (char8 65) wBase
    _DEFAULT_CONTEXT (by decide) (by decide)

/-! ## Lemmas: the shape of a decode run -/

/-- A decode run whose stego text tokenizes non-empty: one codec
invocation after the configured hygiene action, then the counter
increment. -/
theorem _decode_impl_run
    (strat : ReloadStrategy) (everyN : Nat) (tokenizer : Tokenizer) (codec : DecodeCodec)
    (st : ServerState) (req : DecodeRequest) (ds : Settings)
    (hprep : prepareDecode st.baseSettings req = .ok ds)
    (htok : tokenizer req.stego_text ≠ []) :
    _decode_impl strat everyN tokenizer codec st req =
      (.ok (mkDecodeResponse (codec (tokenizer req.stego_text) req.context ds)
             req.expected_bits),
       { st with modelLoaded := true, opCounter := st.opCounter + 1 },
       Event.ensureLoaded :: hygEvents (hygieneFor strat st.opCounter everyN) ++
         [Event.codecDecode ds, Event.counterIncrement]) := by
  simp only [_decode_impl, hprep, htok, if_neg htok]
  simp

/-- A decode run whose stego text tokenizes to the empty sequence fails
with the validation error before any hygiene action or codec invocation. -/
theorem _decode_impl_empty_tokens
    (strat : ReloadStrategy) (everyN : Nat) (tokenizer : Tokenizer) (codec : DecodeCodec)
    (st : ServerState) (req : DecodeRequest) (ds : Settings)
    (hprep : prepareDecode st.baseSettings req = .ok ds)
    (htok : tokenizer req.stego_text = []) :
    _decode_impl strat everyN tokenizer codec st req =
      (.error (.validation emptyTokensDetail), { st with modelLoaded := true },
       [Event.ensureLoaded]) := by
  simp only [_decode_impl, hprep, htok, if_pos]

/-- C5: every stateful request (encode or decode) gets exactly the hygiene
behaviour its startup policy selects: under `none` its trace holds no
hygiene event at all; under `reset` it begins with `resetState` right after
the model-load step; under `reload` it begins with `reloadModel` there;
under `periodic` it begins with `reloadModel` when the operation counter is
a multiple of N, and holds no hygiene event at all otherwise. -/
theorem hygiene_policy_dispatch
    (strat : ReloadStrategy) (everyN : Nat)
    (codec : EncodeCodec) (tokenizer : Tokenizer) (dcodec : DecodeCodec)
    (st : ServerState) (req : EncodeRequest) (dreq : DecodeRequest)
    (bits : List Bool) (s : Settings) (ctx : String)
    (hprep : prepareEncode st.baseSettings req = .ok (bits, s, ctx))
    (ds : Settings)
    (hdprep : prepareDecode st.baseSettings dreq = .ok ds)
    (htok : tokenizer dreq.stego_text ≠ [])
    (hN : 0 < everyN) :
    (strat = .none →
      (_encode_impl strat everyN codec st req).2.2.filter isHygiene = [] ∧
      (_decode_impl strat everyN tokenizer dcodec st dreq).2.2.filter isHygiene = []) ∧
    (strat = .reset →
      (∃ restE, (_encode_impl strat everyN codec st req).2.2 =
        Event.ensureLoaded :: Event.hygiene HygieneAction.resetState :: restE) ∧
      (∃ restD, (_decode_impl strat everyN tokenizer dcodec st dreq).2.2 =
        Event.ensureLoaded :: Event.hygiene HygieneAction.resetState :: restD)) ∧
    (strat = .reload →
      (∃ restE, (_encode_impl strat everyN codec st req).2.2 =
        Event.ensureLoaded :: Event.hygiene HygieneAction.reloadModel :: restE) ∧
      (∃ restD, (_decode_impl strat everyN tokenizer dcodec st dreq).2.2 =
        Event.ensureLoaded :: Event.hygiene HygieneAction.reloadModel :: restD)) ∧
    (strat = .periodic →
      (st.opCounter % everyN = 0 →
        (∃ restE, (_encode_impl strat everyN codec st req).2.2 =
          Event.ensureLoaded :: Event.hygiene HygieneAction.reloadModel :: restE) ∧
        (∃ restD, (_decode_impl strat everyN tokenizer dcodec st dreq).2.2 =
          Event.ensureLoaded :: Event.hygiene HygieneAction.reloadModel :: restD)) ∧
      (st.opCounter % everyN ≠ 0 →
        (_encode_impl strat everyN codec st req).2.2.filter isHygiene = [] ∧
        (_decode_impl strat everyN tokenizer dcodec st dreq).2.2.filter isHygiene = [])) := by
  have hdec := _decode_impl_run strat everyN tokenizer dcodec st dreq ds hdprep htok
  by_cases hr : (codec bits ctx s).n_bits < bits.length
  · have henc := _encode_impl_run_retry strat everyN codec st req bits s ctx hprep hr
    refine ⟨?_, ?_, ?_, ?_⟩ <;> intro hs <;> subst hs
    · rw [henc, hdec]
      simp [hygieneFor, hygEvents, retryHygiene, List.filter_append, isHygiene]
    · rw [henc, hdec]
      exact ⟨⟨_, rfl⟩, ⟨_, rfl⟩⟩
    · rw [henc, hdec]
      exact ⟨⟨_, rfl⟩, ⟨_, rfl⟩⟩
    · constructor
      · intro h0
        rw [henc, hdec]
        simp only [hygieneFor, if_pos h0, hygEvents]
        exact ⟨⟨_, rfl⟩, ⟨_, rfl⟩⟩
      · intro h0
        rw [henc, hdec]
        simp [hygieneFor, if_neg h0, hygEvents, retryHygiene, List.filter_append, isHygiene, h0]
  · have henc := _encode_impl_run_noretry strat everyN codec st req bits s ctx hprep hr
    refine ⟨?_, ?_, ?_, ?_⟩ <;> intro hs <;> subst hs
    · rw [henc, hdec]
      simp [hygieneFor, hygEvents, List.filter_append, isHygiene]
    · rw [henc, hdec]
      exact ⟨⟨_, rfl⟩, ⟨_, rfl⟩⟩
    · rw [henc, hdec]
      exact ⟨⟨_, rfl⟩, ⟨_, rfl⟩⟩
    · constructor
      · intro h0
        rw [henc, hdec]
        simp only [hygieneFor, if_pos h0, hygEvents]
        exact ⟨⟨_, rfl⟩, ⟨_, rfl⟩⟩
      · intro h0
        rw [henc, hdec]
        simp [hygieneFor, if_neg h0, hygEvents, List.filter_append, isHygiene, h0]

/-- A tokenizer double returning one token id. -/
def wTok : Tokenizer := fun _ => [5]

/-- A tokenizer double returning no token ids. -/
def wTokEmpty : Tokenizer := fun _ => []

/-- A decode codec double recovering one byte. -/
def wDecCodec : DecodeCodec := fun _ _ _ => char8 66

/-- A concrete decode request for witness runs. -/
def wDecReq : DecodeRequest := { stego_text := "stego", context := "ctx" }

/-- Witness for C5: with the `periodic` policy on a non-trigger counter
(1 mod 10 ≠ 0), neither the encode trace nor the decode trace holds any
hygiene event. -/
theorem hygiene_policy_dispatch_witness :
    (_encode_impl .periodic 10 wCodecDouble wState wReq).2.2.filter isHygiene = [] ∧
    (_decode_impl .periodic 10 wTok wDecCodec wState wDecReq).2.2.filter isHygiene = [] :=
  ((hygiene_policy_dispatch .periodic 10 wCodecDouble wTok wDecCodec wState wReq wDecReq
      (char8 65) wBase _DEFAULT_CONTEXT (by decide) wBase (by decide) (by decide)
      (by decide)).2.2.2 rfl).2 (by decide)

/-! ## Lemmas: settings merge and the default-settings frame -/

/-- Modelled from the spec's words (refinement target for the settings
merge): start from the deep copy of the defaults; for each field present
(non-null) in the caller's override, overwrite; fields absent in the
override keep the default value; a present seed override (a validated
integer) is stored as that integer seed. -/
def overrideMergeSpec (base : Settings) (ov : SettingsOverride) : Settings :=
  { algo := ov.algo.getD base.algo
    temp := ov.temp.getD base.temp
    top_p := ov.top_p.getD base.top_p
    length := match ov.length with | some l => some l | Option.none => base.length
    seed := match ov.seed with | some n => SeedValue.int n | Option.none => base.seed
    device := base.device }

/-- C7: the override merge overwrites exactly the fields present in the
caller's override and keeps every absent field at its default value
(refinement of the source merge against the specification's field-wise
description), and — the frame condition — the process-wide default
settings surviving in the server state are unchanged by every encode and
decode request, whatever its outcome. -/
theorem settings_merge_frame :
    (∀ base : Settings, _apply_overrides base Option.none = .ok base) ∧
    (∀ (base : Settings) (ov : SettingsOverride),
      _apply_overrides base (some ov) = .ok (overrideMergeSpec base ov)) ∧
    (∀ (strat : ReloadStrategy) (everyN : Nat) (codec : EncodeCodec)
       (st : ServerState) (req : EncodeRequest),
      ((_encode_impl strat everyN codec st req).2.1).baseSettings = st.baseSettings) ∧
    (∀ (strat : ReloadStrategy) (everyN : Nat) (tokenizer : Tokenizer)
       (dcodec : DecodeCodec) (st : ServerState) (dreq : DecodeRequest),
      ((_decode_impl strat everyN tokenizer dcodec st dreq).2.1).baseSettings
        = st.baseSettings) := by
  refine ⟨fun base => rfl, ?_, ?_, ?_⟩
  · intro base ov
    obtain ⟨a, t, p, l, sd⟩ := ov
    cases a <;> cases t <;> cases p <;> cases l <;> cases sd <;> rfl
  · intro strat everyN codec st req
    cases hprep : prepareEncode st.baseSettings req with
    | error e => simp [_encode_impl, hprep]
    | ok v =>
      obtain ⟨bits, s, ctx⟩ := v
      by_cases hr : (codec bits ctx s).n_bits < bits.length
      · rw [_encode_impl_run_retry strat everyN codec st req bits s ctx hprep hr]
      · rw [_encode_impl_run_noretry strat everyN codec st req bits s ctx hprep hr]
  · intro strat everyN tokenizer dcodec st dreq
    cases hdprep : prepareDecode st.baseSettings dreq with
    | error e => simp [_decode_impl, hdprep]
    | ok ds =>
      by_cases htok : tokenizer dreq.stego_text = []
      · rw [_decode_impl_empty_tokens strat everyN tokenizer dcodec st dreq ds hdprep htok]
      · rw [_decode_impl_run strat everyN tokenizer dcodec st dreq ds hdprep htok]

/-- Whether an event is the operation-counter increment. -/
def isCounterIncrement (e : Event) : Bool :=
  match e with
  | .counterIncrement => true
  | _ => false

/-- Hygiene trace fragments contain no counter increment. -/
theorem hygEvents_filter_counterIncrement (o : Option HygieneAction) :
    (hygEvents o).filter isCounterIncrement = [] := by
  cases o <;> rfl

/-- C8: an encode request with an empty message fails with the validation
error, with the server state untouched and an empty event trace (so no
codec invocation occurs); a decode request whose stego text tokenizes to
the empty token sequence fails with the validation error after only the
model-load step (so no codec invocation and no counter increment occurs). -/
theorem empty_input_validation :
    (∀ (strat : ReloadStrategy) (everyN : Nat) (codec : EncodeCodec)
       (st : ServerState) (req : EncodeRequest), req.message = [] →
      _encode_impl strat everyN codec st req =
        (.error (.validation emptyMessageDetail), st, [])) ∧
    (∀ (strat : ReloadStrategy) (everyN : Nat) (tokenizer : Tokenizer)
       (dcodec : DecodeCodec) (st : ServerState) (dreq : DecodeRequest) (ds : Settings),
      prepareDecode st.baseSettings dreq = .ok ds →
      tokenizer dreq.stego_text = [] →
      _decode_impl strat everyN tokenizer dcodec st dreq =
        (.error (.validation emptyTokensDetail), { st with modelLoaded := true },
         [Event.ensureLoaded])) := by
  constructor
  · intro strat everyN codec st req hm
    simp [_encode_impl, prepareEncode, hm, _text_to_bits]
  · intro strat everyN tokenizer dcodec st dreq ds hdprep htok
    exact _decode_impl_empty_tokens strat everyN tokenizer dcodec st dreq ds hdprep htok

/-- Witness for C8: a concrete empty-message encode and a concrete decode
under an empty-tokenization double. -/
theorem empty_input_validation_witness :
    _encode_impl .reset 10 wCodecDouble wState { message := [] } =
      (.error (.validation emptyMessageDetail), wState, []) ∧
    _decode_impl .reset 10 wTokEmpty wDecCodec wState wDecReq =
      (.error (.validation emptyTokensDetail), { wState with modelLoaded := true },
       [Event.ensureLoaded]) :=
  ⟨empty_input_validation.1 .reset 10 wCodecDouble wState { message := [] } rfl,
   empty_input_validation.2 .reset 10 wTokEmpty wDecCodec wState wDecReq wBase
     (by decide) rfl⟩

/-- C10: every encode request that passes validation and reaches the
critical section increments the operation counter by exactly one (one
increment event, inside the critical section), whatever the codec outcome
— in particular also when the post-lock capacity check subsequently fails
the request with the capacity error. -/
theorem encode_counter_increment
    (strat : ReloadStrategy) (everyN : Nat) (codec : EncodeCodec)
    (st : ServerState) (req : EncodeRequest)
    (bits : List Bool) (s : Settings) (ctx : String)
    (hprep : prepareEncode st.baseSettings req = .ok (bits, s, ctx)) :
    ((_encode_impl strat everyN codec st req).2.1).opCounter = st.opCounter + 1 ∧
    (_encode_impl strat everyN codec st req).2.2.filter isCounterIncrement =
      [Event.counterIncrement] := by
  by_cases hr : (codec bits ctx s).n_bits < bits.length
  · rw [_encode_impl_run_retry strat everyN codec st req bits s ctx hprep hr]
    refine ⟨rfl, ?_⟩
    simp [List.filter_append, hygEvents_filter_counterIncrement, isCounterIncrement]
  · rw [_encode_impl_run_noretry strat everyN codec st req bits s ctx hprep hr]
    refine ⟨rfl, ?_⟩
    simp [List.filter_append, hygEvents_filter_counterIncrement, isCounterIncrement]

/-- Witness for C10: the always-short codec double makes the concrete run
fail with the capacity error, and the operation counter is still advanced
by one. -/
theorem encode_counter_increment_witness :
    (_encode_impl .reset 10 cxCodecShort wState wReq).1 =
      .error (.capacity capacityDetail) ∧
    ((_encode_impl .reset 10 cxCodecShort wState wReq).2.1).opCounter =
      wState.opCounter + 1 :=
  ⟨by decide,
   (encode_counter_increment .reset 10 cxCodecShort wState wReq (char8 65) wBase
     _DEFAULT_CONTEXT (by decide)).1⟩
